import Mathlib

/-!
Verification of otto-pl (`src/otto-pl.py`), a script that scores how well a
track fits each of a user's playlists by fitting a multivariate normal to a
playlist's audio-feature vectors.

The paginated Spotify API is modelled by a list of pages: the spotipy client
hands back one page at a time, the page's `next` cursor being non-null exactly
when further pages remain, and `sp.next` advances to the following page.
Numeric feature values are rationals; a Python `None` is `Option.none`.
-/

namespace OttoPL

/-- A Spotify playlist object, restricted to the fields `otto-pl.py` reads:
`collaborative`, `owner['id']`, `public`, `tracks['total']`, `name`, `id`. -/
structure Playlist where
  pid : String
  name : String
  collaborative : Bool
  ownerId : String
  isPublic : Bool
  tracksTotal : Nat
deriving DecidableEq

/-- The filter on line 22-24 of `otto-pl.py`: keep a playlist iff it is not
collaborative, is owned by the current user, is public, and has more than one
track. -/
def playlistKeep (userId : String) (p : Playlist) : Bool :=
  (!p.collaborative) && (p.ownerId == userId) && p.isPublic &&
    decide (p.tracksTotal > 1)

/-- `get_playlists` (lines 7-28).  The loop guard is `while s_playlists['next']`:
the items of the current page are examined only when a next page exists, so the
final page (whose `next` cursor is null) is never scanned.  `pages` is the
sequence of pages the paginated listing API returns, the first element being
the page `sp.user_playlists` hands back. -/
def get_playlists (userId : String) : List (List Playlist) → List Playlist
  | [] => []
  | page :: rest =>
    match rest with
    | [] => []
    | _ :: _ => page.filter (playlistKeep userId) ++ get_playlists userId rest

/-- A Spotify track object, restricted to the field `otto-pl.py` reads: `id`
(null for local tracks). -/
structure Track where
  tid : Option String
deriving DecidableEq

/-- The accumulation loop of `get_tracks_from_playlist` (lines 46-51):
`while True` appends the current page's items and only then tests the `next`
cursor, so every page's items are accumulated, the final page included. -/
def get_tracks_loop : List (List Track) → List Track
  | [] => []
  | page :: rest =>
    match rest with
    | [] => page
    | _ :: _ => page ++ get_tracks_loop rest

/-- `get_tracks_from_playlist` (lines 31-53): accumulate every track page, then
drop the tracks whose `id` is null (line 53). -/
def get_tracks_from_playlist (pages : List (List Track)) : List Track :=
  (get_tracks_loop pages).filter (fun t => t.tid.isSome)

/-- An audio-feature record as returned by `sp.audio_features`: the 12 fields
`otto-pl.py` reads, each nullable. -/
structure TrackFeatures where
  acousticness : Option ℚ
  danceability : Option ℚ
  energy : Option ℚ
  instrumentalness : Option ℚ
  key : Option ℚ
  liveness : Option ℚ
  loudness : Option ℚ
  mode : Option ℚ
  speechiness : Option ℚ
  tempo : Option ℚ
  time_signature : Option ℚ
  valence : Option ℚ
deriving DecidableEq

/-- `feature_vector_from_track` (lines 56-82): look the track up in the
audio-features API (modelled by `af`) and append the 12 fields in the order of
lines 69-80.  No null substitution happens here: the raw (possibly null)
values are returned. -/
def feature_vector_from_track (af : Track → TrackFeatures) (t : Track) :
    List (Option ℚ) :=
  let f := af t
  [f.acousticness, f.danceability, f.energy, f.instrumentalness, f.key,
   f.liveness, f.loudness, f.mode, f.speechiness, f.tempo, f.time_signature,
   f.valence]

/-- Line 119 of `get_distribution`: `[0 if x is None else x for x in vector]`. -/
def substituteNulls (v : List (Option ℚ)) : List ℚ :=
  v.map (fun x => x.getD 0)

/-- The data matrix of `get_distribution` (lines 116-120): one substituted
feature row per track. -/
def dataRows (af : Track → TrackFeatures) (tracks : List Track) :
    List (List ℚ) :=
  tracks.map (fun t => substituteNulls (feature_vector_from_track af t))

/-- `np.mean(data, axis=0)` (line 121): the mean of column `j` across the
rows.  (Division by zero in `ℚ` yields 0.) -/
def colMean (rows : List (List ℚ)) (j : ℕ) : ℚ :=
  (rows.map (fun r => r.getD j 0)).sum / (rows.length : ℚ)

/-- `np.cov(data, rowvar=False)` (line 122) with numpy's default `ddof = 1`:
entry `(i, j)` of the sample covariance matrix. -/
def covEntry (rows : List (List ℚ)) (i j : ℕ) : ℚ :=
  (rows.map (fun r =>
      (r.getD i 0 - colMean rows i) * (r.getD j 0 - colMean rows j))).sum /
    ((rows.length : ℚ) - 1)

/-- The fitted multivariate normal model: the `(mean, cov)` pair
`scipy.stats.multivariate_normal` is constructed from. -/
structure MVNModel where
  mean : ℕ → ℚ
  cov : ℕ → ℕ → ℚ

/-- Modelled from the spec: the external collaborator
`scipy.stats.multivariate_normal(mean, cov, allow_singular)` raises an error
when the covariance matrix is singular, unless `allow_singular` is set, in
which case a singular (rank-deficient) covariance is permitted without
failing.  The 12 dimensions are those of the feature vector. -/
def multivariate_normal (mean : ℕ → ℚ) (cov : ℕ → ℕ → ℚ)
    (allowSingular : Bool) : Except String MVNModel :=
  match allowSingular with
  | true => .ok ⟨mean, cov⟩
  | false =>
    if (Matrix.of fun i j : Fin 12 => cov i.val j.val).det = 0 then
      .error "singular matrix"
    else
      .ok ⟨mean, cov⟩

/-- `get_distribution` (lines 102-125): collect the playlist's tracks, build
the substituted data matrix, take column means and the sample covariance, and
construct the multivariate normal with `allow_singular=True`.  `trackPages`
is the paginated track listing of the playlist. -/
def get_distribution (af : Track → TrackFeatures)
    (trackPages : List (List Track)) : Except String MVNModel :=
  let tracks := get_tracks_from_playlist trackPages
  let rows := dataRows af tracks
  multivariate_normal (colMean rows) (covEntry rows) true

/-- Modelled from the spec: `scipy.stats.multivariate_normal.logpdf` for the
degenerate case in which the fitted covariance matrix is the zero matrix.
The support of the distribution is then the single point `mean` (rank 0,
pseudo-determinant 1), the log-density is `log 1 = 0` on the support and
`-∞` (here `⊥`) off the support.  Only the first 12 coordinates — the
dimensions of the feature vector — are compared. -/
def logpdfZeroCov (mean : ℕ → ℚ) (x : ℕ → ℚ) : WithBot ℚ :=
  if ∀ j ∈ Finset.range 12, x j = mean j then ((0 : ℚ) : WithBot ℚ) else ⊥

/-- `log_likelihood_track_playlist` (lines 128-143) specialised to the case in
which the fitted covariance matrix is zero (the only case whose log-density
the spec pins down): the distribution is fitted to the playlist's tracks and
its log-density is evaluated at the candidate track's feature vector.  The
log-density is the spec-modelled `logpdfZeroCov`; the candidate vector is read
through the null substitution (the spec's example has no null field, where raw
and substituted vectors agree). -/
def log_likelihood_zero_cov (af : Track → TrackFeatures)
    (trackPages : List (List Track)) (t : Track) : WithBot ℚ :=
  logpdfZeroCov
    (colMean (dataRows af (get_tracks_from_playlist trackPages)))
    (fun j => (substituteNulls (feature_vector_from_track af t)).getD j 0)

/-- `log_likelihoods_for_track` (lines 146-160): one `(name, log-likelihood)`
pair per playlist, in playlist order, then `sorted(results, key=pair[1])` —
Python's stable ascending sort by the likelihood component, modelled by the
stable `List.mergeSort`.  The likelihood computation (a scipy log-density,
possibly `-∞`) is the parameter `ll`. -/
def log_likelihoods_for_track (ll : Playlist → WithBot ℚ)
    (playlists : List Playlist) : List (String × WithBot ℚ) :=
  (playlists.map (fun p => (p.name, ll p))).mergeSort
    (fun a b => decide (a.2 ≤ b.2))

/-! ## Helper lemmas -/

theorem mem_get_playlists_keep {u : String} {pages : List (List Playlist)}
    {p : Playlist} (h : p ∈ get_playlists u pages) : playlistKeep u p = true := by
  induction pages with
  | nil => simp [get_playlists] at h
  | cons page rest ih =>
    cases rest with
    | nil => simp [get_playlists] at h
    | cons q rs =>
      rw [get_playlists] at h
      rcases List.mem_append.1 h with h1 | h2
      · exact (List.mem_filter.1 h1).2
      · exact ih h2

theorem mem_get_tracks_loop {pages : List (List Track)} {page : List Track}
    {t : Track} (hpage : page ∈ pages) (ht : t ∈ page) :
    t ∈ get_tracks_loop pages := by
  induction pages with
  | nil => simp at hpage
  | cons q rest ih =>
    cases rest with
    | nil =>
      rw [get_tracks_loop]
      rcases List.mem_cons.1 hpage with h | h
      · exact h ▸ ht
      · simp at h
    | cons r rs =>
      rw [get_tracks_loop]
      rcases List.mem_cons.1 hpage with h | h
      · exact List.mem_append.2 (Or.inl (h ▸ ht))
      · exact List.mem_append.2 (Or.inr (ih h))

/-- An audio-feature record whose `acousticness` is null and whose other
fields are present. -/
def cexFeatures : TrackFeatures :=
  ⟨none, some 1, some 1, some 1, some 1, some 1, some 1, some 1, some 1,
   some 1, some 1, some 1⟩

/-- An audio-features API that returns `cexFeatures` for every track. -/
def cexAf : Track → TrackFeatures := fun _ => cexFeatures

/-- A track with a non-null identifier. -/
def cexTrack : Track := ⟨some "t"⟩

/-- An audio-feature record with all 12 fields present. -/
def constFeatures : TrackFeatures :=
  ⟨some 1, some (1/2), some 2, some 0, some 5, some (3/10), some (-7),
   some 1, some (1/10), some 120, some 4, some (9/10)⟩

/-- An audio-features API that returns `constFeatures` for every track. -/
def constAf : Track → TrackFeatures := fun _ => constFeatures

/-! ## Claim theorems -/

/-- C1: `get_playlists` does NOT return playlists from every page.  The loop
guard `while s_playlists['next']` skips the final page: a qualifying playlist
that sits on the last (or only) page of the listing is dropped, while the very
same playlist on a non-final page is returned.  In particular a single-page
listing always yields the empty list. -/
theorem get_playlists_drops_final_page :
    get_playlists "alice" [[⟨"pl1", "Mix", false, "alice", true, 2⟩]] = [] ∧
    playlistKeep "alice" ⟨"pl1", "Mix", false, "alice", true, 2⟩ = true ∧
    get_playlists "alice" [[⟨"pl1", "Mix", false, "alice", true, 2⟩], []] =
      [⟨"pl1", "Mix", false, "alice", true, 2⟩] := by
  refine ⟨rfl, by decide, rfl⟩

/-- C3: every playlist in the output of `get_playlists` passed the filter of
lines 22-24: not collaborative, owned by the current user, public, and with
more than one track. -/
theorem get_playlists_output_filtered (u : String)
    (pages : List (List Playlist)) (p : Playlist)
    (h : p ∈ get_playlists u pages) :
    p.collaborative = false ∧ p.ownerId = u ∧ p.isPublic = true ∧
      1 < p.tracksTotal := by
  have hk := mem_get_playlists_keep h
  simp only [playlistKeep, Bool.and_eq_true, Bool.not_eq_true',
    beq_iff_eq, decide_eq_true_eq] at hk
  exact ⟨hk.1.1.1, hk.1.1.2, hk.1.2, hk.2⟩

theorem get_playlists_output_filtered_witness :
    (⟨"pl1", "Mix", false, "alice", true, 2⟩ : Playlist).collaborative = false ∧
    (⟨"pl1", "Mix", false, "alice", true, 2⟩ : Playlist).ownerId = "alice" ∧
    (⟨"pl1", "Mix", false, "alice", true, 2⟩ : Playlist).isPublic = true ∧
    1 < (⟨"pl1", "Mix", false, "alice", true, 2⟩ : Playlist).tracksTotal :=
  get_playlists_output_filtered "alice"
    [[⟨"pl1", "Mix", false, "alice", true, 2⟩], []]
    ⟨"pl1", "Mix", false, "alice", true, 2⟩ (by decide)

/-- C4: no track with a null identifier appears in the output of
`get_tracks_from_playlist` (the filter of line 53). -/
theorem get_tracks_no_null_id (pages : List (List Track)) (t : Track)
    (h : t ∈ get_tracks_from_playlist pages) : t.tid ≠ none := by
  have := (List.mem_filter.1 h).2
  simpa [Option.isSome_iff_ne_none] using this

theorem get_tracks_no_null_id_witness :
    (⟨some "t1"⟩ : Track).tid ≠ none :=
  get_tracks_no_null_id [[⟨some "t1"⟩]] ⟨some "t1"⟩ (by decide)

/-- C9: `get_tracks_from_playlist` appends the items of each page before
testing the `next` cursor, so a track with a non-null identifier that appears
on any page — the final page included — appears in the result; a single-page
listing yields a non-empty result whenever the page holds a track with an
identifier. -/
theorem get_tracks_all_pages_included :
    (∀ (pages : List (List Track)) (page : List Track) (t : Track),
        page ∈ pages → t ∈ page → t.tid.isSome →
        t ∈ get_tracks_from_playlist pages) ∧
    (∀ (page : List Track) (t : Track), t ∈ page → t.tid.isSome →
        get_tracks_from_playlist [page] ≠ []) := by
  constructor
  · intro pages page t hpage ht hsome
    exact List.mem_filter.2 ⟨mem_get_tracks_loop hpage ht, hsome⟩
  · intro page t ht hsome hempty
    have : t ∈ get_tracks_from_playlist [page] :=
      List.mem_filter.2 ⟨mem_get_tracks_loop (List.mem_singleton_self page) ht,
        hsome⟩
    rw [hempty] at this
    simp at this

theorem get_tracks_all_pages_included_witness :
    (⟨some "t1"⟩ : Track) ∈ get_tracks_from_playlist [[], [⟨some "t1"⟩]] ∧
    get_tracks_from_playlist [[⟨some "t1"⟩]] ≠ [] :=
  ⟨get_tracks_all_pages_included.1 [[], [⟨some "t1"⟩]] [⟨some "t1"⟩]
      ⟨some "t1"⟩ (by decide) (by decide) (by decide),
   get_tracks_all_pages_included.2 [⟨some "t1"⟩] ⟨some "t1"⟩
      (by decide) (by decide)⟩

/-- C2 counterexample: when a track's `acousticness` field is null, the
vector `feature_vector_from_track` builds — the very vector line 142 passes
to `dist.logpdf` inside `log_likelihood_track_playlist` — holds the null at
position 0, not 0; only the rows assembled inside `get_distribution`
(line 119) receive the null-to-zero substitution. -/
theorem log_likelihood_vector_null_unsubstituted :
    (feature_vector_from_track cexAf cexTrack).get ⟨0, by decide⟩ = none ∧
    (feature_vector_from_track cexAf cexTrack).get ⟨0, by decide⟩ ≠ some 0 ∧
    (substituteNulls (feature_vector_from_track cexAf cexTrack)).get
      ⟨0, by decide⟩ = 0 := by
  decide

/-- C2 (amended): the feature vector has exactly 12 entries in the fixed
order acousticness, danceability, energy, instrumentalness, key, liveness,
loudness, mode, speechiness, tempo, time_signature, valence; the null-to-zero
substitution of line 119 maps every null entry to 0 and keeps every present
value — but it is applied only to the rows built inside `get_distribution`,
not to the candidate vector of `log_likelihood_track_playlist`. -/
theorem feature_vector_order_and_substitution (af : Track → TrackFeatures)
    (t : Track) :
    (feature_vector_from_track af t).length = 12 ∧
    feature_vector_from_track af t =
      [(af t).acousticness, (af t).danceability, (af t).energy,
       (af t).instrumentalness, (af t).key, (af t).liveness, (af t).loudness,
       (af t).mode, (af t).speechiness, (af t).tempo, (af t).time_signature,
       (af t).valence] ∧
    (∀ k, k < 12 →
      (substituteNulls (feature_vector_from_track af t)).getD k 0 =
        ((feature_vector_from_track af t).getD k none).getD 0) := by
  refine ⟨rfl, rfl, ?_⟩
  intro k hk
  interval_cases k <;> rfl

theorem feature_vector_order_and_substitution_witness :
    (0 : ℕ) < 12 ∧
    (substituteNulls (feature_vector_from_track cexAf cexTrack)).getD 0 0 =
      ((feature_vector_from_track cexAf cexTrack).getD 0 none).getD 0 :=
  ⟨by decide,
   (feature_vector_order_and_substitution cexAf cexTrack).2.2 0 (by decide)⟩

/-- C5: the list returned by `log_likelihoods_for_track` is sorted in
ascending order of the log-likelihood component. -/
theorem log_likelihoods_sorted_ascending (ll : Playlist → WithBot ℚ)
    (playlists : List Playlist) :
    (log_likelihoods_for_track ll playlists).Pairwise
      (fun a b => a.2 ≤ b.2) := by
  have h :=
    @List.sorted_mergeSort (String × WithBot ℚ)
      (fun a b => decide (a.2 ≤ b.2))
      (fun a b c hab hbc =>
        decide_eq_true (le_trans (of_decide_eq_true hab)
          (of_decide_eq_true hbc)))
      (fun a b => by rcases le_total a.2 b.2 with hle | hle <;> simp [hle])
      (playlists.map (fun p => (p.name, ll p)))
  exact h.imp (fun hab => of_decide_eq_true hab)

/-- C10: `log_likelihoods_for_track` keeps exactly one pair per input
playlist: the output is a permutation of the pairs built from the input, its
length matches, its names are a permutation of the input names, and the sort
is stable — two pairs with equal likelihood stay in input order. -/
theorem log_likelihoods_names_perm_stable (ll : Playlist → WithBot ℚ)
    (playlists : List Playlist) :
    (log_likelihoods_for_track ll playlists).length = playlists.length ∧
    (log_likelihoods_for_track ll playlists).Perm
      (playlists.map (fun p => (p.name, ll p))) ∧
    ((log_likelihoods_for_track ll playlists).map Prod.fst).Perm
      (playlists.map (fun p => p.name)) ∧
    (∀ a b : String × WithBot ℚ,
      [a, b].Sublist (playlists.map (fun p => (p.name, ll p))) → a.2 = b.2 →
      [a, b].Sublist (log_likelihoods_for_track ll playlists)) := by
  have hperm := List.mergeSort_perm (playlists.map (fun p => (p.name, ll p)))
    (fun a b => decide (a.2 ≤ b.2))
  refine ⟨?_, hperm, ?_, ?_⟩
  · simp [log_likelihoods_for_track]
  · have := hperm.map Prod.fst
    simpa [List.map_map, Function.comp] using this
  · intro a b hsub heq
    exact List.pair_sublist_mergeSort
      (fun a b c hab hbc =>
        decide_eq_true (le_trans (of_decide_eq_true hab)
          (of_decide_eq_true hbc)))
      (fun a b => by rcases le_total a.2 b.2 with hle | hle <;> simp [hle])
      (decide_eq_true (le_of_eq heq)) hsub

theorem log_likelihoods_names_perm_stable_witness :
    [("A", (0 : WithBot ℚ)), ("B", (0 : WithBot ℚ))].Sublist
      (log_likelihoods_for_track (fun _ => (0 : WithBot ℚ))
        [⟨"a", "A", false, "u", true, 2⟩, ⟨"b", "B", false, "u", true, 2⟩]) :=
  (log_likelihoods_names_perm_stable (fun _ => (0 : WithBot ℚ))
      [⟨"a", "A", false, "u", true, 2⟩,
       ⟨"b", "B", false, "u", true, 2⟩]).2.2.2
    ("A", (0 : WithBot ℚ)) ("B", (0 : WithBot ℚ))
    (List.Sublist.refl _) rfl

/-- `colMean` only depends on the multiset of rows. -/
theorem colMean_perm {rows rows' : List (List ℚ)} (h : rows.Perm rows') :
    colMean rows = colMean rows' := by
  funext j
  unfold colMean
  rw [(h.map (fun r => r.getD j 0)).sum_eq, h.length_eq]

/-- `covEntry` only depends on the multiset of rows. -/
theorem covEntry_perm {rows rows' : List (List ℚ)} (h : rows.Perm rows')
    (i j : ℕ) : covEntry rows i j = covEntry rows' i j := by
  unfold covEntry
  rw [colMean_perm h]
  rw [(h.map (fun r =>
      (r.getD i 0 - colMean rows' i) * (r.getD j 0 - colMean rows' j))).sum_eq,
    h.length_eq]

/-- C6: the mean vector and covariance matrix computed in `get_distribution`
are invariant under any permutation of the playlist's tracks. -/
theorem distribution_perm_invariant (af : Track → TrackFeatures)
    (tracks tracks' : List Track) (h : tracks.Perm tracks') :
    (∀ j, colMean (dataRows af tracks) j = colMean (dataRows af tracks') j) ∧
    (∀ i j, covEntry (dataRows af tracks) i j =
      covEntry (dataRows af tracks') i j) := by
  have hr : (dataRows af tracks).Perm (dataRows af tracks') :=
    h.map (fun t => substituteNulls (feature_vector_from_track af t))
  exact ⟨fun j => congrFun (colMean_perm hr) j, covEntry_perm hr⟩

theorem distribution_perm_invariant_witness :
    colMean (dataRows constAf [⟨some "a"⟩, ⟨some "b"⟩]) 0 =
      colMean (dataRows constAf [⟨some "b"⟩, ⟨some "a"⟩]) 0 ∧
    covEntry (dataRows constAf [⟨some "a"⟩, ⟨some "b"⟩]) 0 1 =
      covEntry (dataRows constAf [⟨some "b"⟩, ⟨some "a"⟩]) 0 1 :=
  ⟨(distribution_perm_invariant constAf _ _
      (List.Perm.swap ⟨some "b"⟩ ⟨some "a"⟩ [])).1 0,
   (distribution_perm_invariant constAf _ _
      (List.Perm.swap ⟨some "b"⟩ ⟨some "a"⟩ [])).2 0 1⟩

/-- C7: `get_distribution` always constructs the multivariate normal model
and never returns an error, whatever the playlist's tracks and features —
singular (for instance all-zero) covariance included — because the code
passes `allow_singular=True`. -/
theorem get_distribution_never_fails (af : Track → TrackFeatures)
    (trackPages : List (List Track)) :
    get_distribution af trackPages =
      Except.ok
        ⟨colMean (dataRows af (get_tracks_from_playlist trackPages)),
         covEntry (dataRows af (get_tracks_from_playlist trackPages))⟩ := rfl

/-- The column mean of three identical rows is the row itself. -/
theorem colMean_three (w : List ℚ) (j : ℕ) :
    colMean [w, w, w] j = w.getD j 0 := by
  unfold colMean
  simp
  ring

/-- The sample covariance of three identical rows vanishes. -/
theorem covEntry_three (w : List ℚ) (i j : ℕ) :
    covEntry [w, w, w] i j = 0 := by
  unfold covEntry
  simp [colMean_three]

/-- C8: for a playlist page of 3 tracks with identical feature vectors, the
covariance matrix computed in `get_distribution` is all zeros — a singular
matrix: a nonzero vector lies in its kernel — and the log-likelihood
assigned to that exact vector is 0, the maximum value the fitted
(degenerate) distribution attains anywhere, and not `⊥` (negative
infinity). -/
theorem identical_tracks_singular_max (af : Track → TrackFeatures)
    (t1 t2 t3 : Track)
    (h1 : t1.tid.isSome) (h2 : t2.tid.isSome) (h3 : t3.tid.isSome)
    (e2 : feature_vector_from_track af t2 = feature_vector_from_track af t1)
    (e3 : feature_vector_from_track af t3 = feature_vector_from_track af t1) :
    (∀ i j, covEntry (dataRows af (get_tracks_from_playlist [[t1, t2, t3]]))
        i j = 0) ∧
    (∃ v : Fin 12 → ℚ, v ≠ 0 ∧
      (Matrix.of fun i j : Fin 12 =>
        covEntry (dataRows af (get_tracks_from_playlist [[t1, t2, t3]]))
          i.val j.val).mulVec v = 0) ∧
    log_likelihood_zero_cov af [[t1, t2, t3]] t1 = ((0 : ℚ) : WithBot ℚ) ∧
    (∀ x : ℕ → ℚ,
      logpdfZeroCov
          (colMean (dataRows af (get_tracks_from_playlist [[t1, t2, t3]]))) x ≤
        log_likelihood_zero_cov af [[t1, t2, t3]] t1) ∧
    log_likelihood_zero_cov af [[t1, t2, t3]] t1 ≠ ⊥ := by
  have htr : get_tracks_from_playlist [[t1, t2, t3]] = [t1, t2, t3] := by
    simp [get_tracks_from_playlist, get_tracks_loop, List.filter, h1, h2, h3]
  have hrows : dataRows af (get_tracks_from_playlist [[t1, t2, t3]]) =
      [substituteNulls (feature_vector_from_track af t1),
       substituteNulls (feature_vector_from_track af t1),
       substituteNulls (feature_vector_from_track af t1)] := by
    rw [htr]
    simp [dataRows, e2, e3]
  have hcov : ∀ i j,
      covEntry (dataRows af (get_tracks_from_playlist [[t1, t2, t3]])) i j
        = 0 := by
    intro i j
    rw [hrows]
    exact covEntry_three _ i j
  have hll : log_likelihood_zero_cov af [[t1, t2, t3]] t1
      = ((0 : ℚ) : WithBot ℚ) := by
    unfold log_likelihood_zero_cov logpdfZeroCov
    rw [if_pos]
    intro j _
    rw [hrows, colMean_three]
  refine ⟨hcov, ?_, hll, ?_, ?_⟩
  · refine ⟨fun _ => 1, ?_, ?_⟩
    · intro hv
      have := congrFun hv 0
      simp at this
    · funext i
      simp [Matrix.mulVec, Matrix.dotProduct, hcov]
  · intro x
    rw [hll]
    unfold logpdfZeroCov
    split
    · exact le_refl _
    · exact bot_le
  · rw [hll]
    simp

theorem identical_tracks_singular_max_witness :
    covEntry
        (dataRows constAf (get_tracks_from_playlist
          [[⟨some "t"⟩, ⟨some "t"⟩, ⟨some "t"⟩]])) 0 0 = 0 ∧
    log_likelihood_zero_cov constAf [[⟨some "t"⟩, ⟨some "t"⟩, ⟨some "t"⟩]]
        ⟨some "t"⟩ = ((0 : ℚ) : WithBot ℚ) ∧
    log_likelihood_zero_cov constAf [[⟨some "t"⟩, ⟨some "t"⟩, ⟨some "t"⟩]]
        ⟨some "t"⟩ ≠ ⊥ := by
  have h := identical_tracks_singular_max constAf ⟨some "t"⟩ ⟨some "t"⟩
    ⟨some "t"⟩ (by decide) (by decide) (by decide) rfl rfl
  exact ⟨h.1 0 0, h.2.2.1, h.2.2.2.2⟩

end OttoPL

